import Mathlib

/-!
Verification development for the PythonPhot DAOPHOT point-spread-function
evaluator: a shallow embedding in exact rational arithmetic of

  * `rinter.py`  — cubic (Catmull-Rom, a = -1/2) interpolation of a sampled
    2-D array at real-valued coordinates, with optional analytic derivatives;
  * `dao_value.py` — the composite PSF evaluation (analytic Gaussian from the
    external `daoerf` plus a residual interpolated from a lookup table).

Numpy float arrays are modelled as `List ℚ` (all operations performed by the
source on the paths modelled here are field operations, exactly representable
over ℚ); a numpy IndexError / ValueError is modelled by `Option.none`.
The external Gaussian evaluator `daoerf` is not part of the repository source
and is kept abstract: `dao_value` takes it as a function parameter.
-/

/-- Python `int()` truncation toward zero of a rational (`x.astype(int)` in
rinter.py line 117, applied to float coordinates). -/
def pytrunc (q : ℚ) : ℤ := if q < 0 then -(⌊-q⌋) else ⌊q⌋

/-- Numpy-style 1-D indexing: a negative index wraps once from the end
(`p[-1]` is the last element); anything still out of range raises IndexError,
modelled as `none`. -/
def npGet {α : Type} (l : List α) (i : ℤ) : Option α :=
  let j : ℤ := if i < 0 then i + l.length else i
  if 0 ≤ j then l.get? j.toNat else none

/-- Cubic coefficients and Horner evaluation from rinter.py lines 186-200
(equivalently 156-170 in the padded branch, and the column pass, lines
213-216):
`c1 = 0.5(p1 - p_1)`, `c2 = 2 p1 + p_1 - 0.5(5 p0 + p2)`,
`c3 = 0.5(3(p0 - p1) + p2 - p_1)`, value `d(d(d c3 + c2) + c1) + p0`. -/
def hornerVal (pm1 p0 p1 p2 d : ℚ) : ℚ :=
  let c1 := (1/2) * (p1 - pm1)
  let c2 := 2*p1 + pm1 - (1/2)*(5*p0 + p2)
  let c3 := (1/2)*(3*(p0 - p1) + p2 - pm1)
  d*(d*(d*c3 + c2) + c1) + p0

/-- Derivative of the cubic, rinter.py lines 204-207 and 218:
`d(d (3 c3) + 2 c2) + c1` with the same coefficients. -/
def hornerDer (pm1 p0 p1 p2 d : ℚ) : ℚ :=
  let c1 := (1/2) * (p1 - pm1)
  let c2 := 2*p1 + pm1 - (1/2)*(5*p0 + p2)
  let c3 := (1/2)*(3*(p0 - p1) + p2 - pm1)
  d*(d*c3*3 + 2*c2) + c1

/-- The standard Catmull-Rom (cubic convolution, a = -1/2) interpolation
polynomial in monomial form,
`p(d) = (1/2)[(2 p0) + (p1 - p_1) d + (2 p_1 - 5 p0 + 4 p1 - p2) d^2
        + (-p_1 + 3 p0 - 3 p1 + p2) d^3]`,
written out with the weights distributed.  This definition follows the
spec's characterisation of the kernel, independently of the source's
`c1, c2, c3` factorisation. -/
def catmullRom (pm1 p0 p1 p2 d : ℚ) : ℚ :=
  ((-1/2)*pm1 + (3/2)*p0 - (3/2)*p1 + (1/2)*p2) * d^3
  + (pm1 - (5/2)*p0 + 2*p1 - (1/2)*p2) * d^2
  + ((1/2)*p1 - (1/2)*pm1) * d + p0

/-- Gather the four taps `T[idx-1], T[idx], T[idx+1], T[idx+2]` used for the
coefficients and value at flattened position `idx`
(rinter.py lines 184-185 / 154-155: `p_1 = p[xgood-1]; p0 = p[xgood];
p1 = p[xgood+1]; p2 = p[xgood+2]`, read back at the positions
`x_1, x0, x1, x2`). -/
def gather4 (T : List ℚ) (idx : ℤ) : Option (ℚ × ℚ × ℚ × ℚ) :=
  match npGet T (idx - 1), npGet T idx, npGet T (idx + 1), npGet T (idx + 2) with
  | some a, some b, some c, some d => some (a, b, c, d)
  | _, _, _, _ => none

/-- Row-direction cubic value at a gathered 4-tap neighbourhood. -/
def cubicOf (g : ℚ × ℚ × ℚ × ℚ) (d : ℚ) : ℚ :=
  hornerVal g.1 g.2.1 g.2.2.1 g.2.2.2 d

/-- Row-direction cubic derivative at a gathered 4-tap neighbourhood. -/
def cubicDOf (g : ℚ × ℚ × ℚ × ℚ) (d : ℚ) : ℚ :=
  hornerDer g.1 g.2.1 g.2.2.1 g.2.2.2 d

/-- Flattened base index `x_1 = c[1]*(j-1) + i` of a sample (rinter.py
lines 117-120), where `s = (x, y)` and `N` is the row stride `c[1]`. -/
def baseOf (N : ℤ) (s : ℚ × ℚ) : ℤ :=
  N * (pytrunc s.2 - 1) + pytrunc s.1

/-- One sample of the separable bicubic evaluation (rinter.py lines 117-123,
163-181 / 193-211, 213-218).  Returns `(z, dfdx, dfdy)`:

  * four row interpolations at the flattened indices
    `x_1, x0 = x_1 + N, x1 = x_1 + 2N, x2 = x_1 + 3N` with the x fractional
    part, giving `y_1, y0, y1, y2`;
  * the column pass over those four with the y fractional part gives `z`
    (lines 213-216) and `dfdy` (line 218);
  * `dfdx` re-runs the row pass with the cubic's derivative (lines 204-207)
    and combines the four `dy` values with the column cubic (line 211).

The source only executes the derivative lines when `deriv` is set, but they
read exactly the same table positions as the value lines, so they are
computed unconditionally here and discarded by the caller when derivatives
were not requested — the observable behaviour (including failure) is
identical. -/
def sampleEval (T : List ℚ) (N : ℤ) (x y : ℚ) : Option (ℚ × ℚ × ℚ) :=
  let xd := x - (pytrunc x : ℚ)
  let yd := y - (pytrunc y : ℚ)
  let b := baseOf N (x, y)
  match gather4 T b, gather4 T (b + N), gather4 T (b + 2*N), gather4 T (b + 3*N) with
  | some g1, some g2, some g3, some g4 =>
      let ym1 := cubicOf g1 xd
      let y0 := cubicOf g2 xd
      let y1 := cubicOf g3 xd
      let y2 := cubicOf g4 xd
      let dym1 := cubicDOf g1 xd
      let dy0 := cubicDOf g2 xd
      let dy1 := cubicDOf g3 xd
      let dy2 := cubicDOf g4 xd
      some (hornerVal ym1 y0 y1 y2 yd,
            hornerVal dym1 dy0 dy1 dy2 yd,
            hornerDer ym1 y0 y1 y2 yd)
  | _, _, _, _ => none

/-- Map a fallible function over a list, failing if any element fails
(the vectorised numpy expressions of rinter.py act elementwise over the
sample batch; an out-of-range subscript anywhere raises for the whole
call). -/
def optMap {α β : Type} : List α → (α → Option β) → Option (List β)
  | [], _ => some []
  | a :: as, f =>
      match f a, optMap as f with
      | some b, some bs => some (b :: bs)
      | _, _ => none

/-- Floor square root, `plen = int(np.sqrt(len(p)))` (rinter.py line 94):
the largest `k` with `k*k ≤ n`, computed as the last element of the
ascending list of such `k`. -/
def intSqrt (n : ℕ) : ℕ :=
  ((List.range (n + 1)).filter (fun k => k * k ≤ n)).getLastD 0

/-- Python `max` over a list of integers; `max([])` raises, modelled as
`none` (rinter.py line 134/140: `max(xgood)`). -/
def listMaxZ : List ℤ → Option ℤ
  | [] => none
  | a :: as => some (as.foldl max a)

/-- The evaluation loop shared by both padding branches of rinter.py:
per-sample separable bicubic over the (possibly padded) flat table `T`,
assembling the value vector and, when requested, the two derivative
vectors. -/
def rinterBody (T : List ℚ) (N : ℤ) (samples : List (ℚ × ℚ)) (deriv : Bool) :
    Option (List ℚ × Option (List ℚ × List ℚ)) :=
  match optMap samples (fun s => sampleEval T N s.1 s.2) with
  | none => none
  | some rs =>
      some (rs.map (fun r => r.1),
            match deriv with
            | true => some (rs.map (fun r => r.2.1), rs.map (fun r => r.2.2))
            | false => none)

/-- Padding decision of rinter.py line 140 for a known `m = max(xgood)`:
if `max(xgood) > len(p) - 3` the table is extended by repeating its last
value (lines 141-144: `p_new[plen:] = p[plen-1]`, an IndexError — `none` —
when `p` is empty), and likewise the coefficient arrays (lines 146-152),
whose entries at every accessed position are then overwritten with the
coefficients of the padded table (lines 154-158); otherwise the table is
used as is.  Then the evaluation loop runs over the chosen table. -/
def rinterDispatch (p : List ℚ) (N : ℤ) (samples : List (ℚ × ℚ)) (deriv : Bool)
    (m : ℤ) : Option (List ℚ × Option (List ℚ × List ℚ)) :=
  if m > (p.length : ℤ) - 3 then
    if p = [] then none
    else
      rinterBody (p ++ List.replicate (m + 3 - p.length).toNat (p.getLastD 0))
        N samples deriv
  else rinterBody p N samples deriv

/-- Core of `rinter` on an already-flattened table `p` with row stride `N`
and 1-D coordinate batches (rinter.py lines 113-216).

  * Batches of different lengths make the vectorised index arithmetic of
    line 120 raise (numpy shape mismatch): `none`.
  * Samples whose base index `x_1` is negative are declared "meaningless"
    by the source docstring (lines 59-63); numpy would wrap them around into
    positions of the zero-initialised coefficient arrays.  They are outside
    the modelled range: `none`.
  * `max(xgood)` over the union of needed indices (lines 132-135); `max` of
    an empty batch raises (`none`).
  * The padding decision and evaluation loop are in `rinterDispatch`. -/
def rinterFlat (p : List ℚ) (N : ℤ) (xs ys : List ℚ) (deriv : Bool) :
    Option (List ℚ × Option (List ℚ × List ℚ)) :=
  if xs.length = ys.length then
    let samples := xs.zip ys
    if _h : ∀ s ∈ samples, 0 ≤ baseOf N s then
      match listMaxZ (samples.bind (fun s =>
          [baseOf N s, baseOf N s + N, baseOf N s + 2*N, baseOf N s + 3*N])) with
      | none => none
      | some m => rinterDispatch p N samples deriv m
    else none
  else none

/-- `rinter(p, x, y, deriv, init, ps1d=True)` with 1-D coordinate batches.
With `ps1d=True` the grid stride is `plen = int(np.sqrt(len(p)))`
(rinter.py lines 93-95) and the table is used flat.

The `init=True` path (lines 99-111) binds `p_1`, `p1`, `p2` as aliases of
`p` and then performs the in-place element assignments
`p_1[0,1] = p[:,0:nx-2]`, `p1[0,0] = p[:,1:]`, `p2[0,0] = p[:,2:]`: on a 1-D
table the double subscript raises IndexError, on a 2-D table assigning a
slice to a single element raises ValueError, so the call always raises
before anything is returned; moreover with `init = 1` the block computing
`y_1 .. y2` (lines 130-211) is skipped, so line 213 would hit an unbound
name.  Modelled as `none`. -/
def rinter1d (p : List ℚ) (xs ys : List ℚ) (deriv init : Bool) :
    Option (List ℚ × Option (List ℚ × List ℚ)) :=
  match init with
  | true => none
  | false => rinterFlat p ((intSqrt p.length : ℤ)) xs ys deriv

/-- `rinter(p, x, y, deriv, init, ps1d=False)` with a genuinely 2-D table
and 1-D coordinate batches: the stride is `np.shape(p)[1]` (line 92) and the
table is flattened row-major before indexing (lines 127-129).  The `init`
path raises exactly as in `rinter1d`. -/
def rinter2d (p : List (List ℚ)) (xs ys : List ℚ) (deriv init : Bool) :
    Option (List ℚ × Option (List ℚ × List ℚ)) :=
  match init with
  | true => none
  | false => rinterFlat p.flatten (((p.headD []).length : ℤ)) xs ys deriv

/-- Row-major reshape of a flat list into `r` rows of `c` entries
(`z.reshape(xshape[0], xshape[1])`, rinter.py line 232). -/
def reshape2 (r c : Nat) (l : List ℚ) : List (List ℚ) :=
  match r with
  | 0 => []
  | Nat.succ r1 => l.take c :: reshape2 r1 c (l.drop c)

/-- `rinter` with 2-D coordinate arrays (`ps1d=True` table): the coordinates
are flattened row-major on entry (rinter.py lines 83-89) and only the value
`z` is reshaped back to the original 2-D shape on return (line 232); the
derivative vectors `dfdx, dfdy` are returned still flattened (the reshape of
lines 222-225 sits under `if len(sx) == 2`, where `sx` is the shape of the
already-flattened `x`, so it never executes). -/
def rinterGrid (p : List ℚ) (xs ys : List (List ℚ)) (deriv : Bool) :
    Option (List (List ℚ) × Option (List ℚ × List ℚ)) :=
  match rinterFlat p ((intSqrt p.length : ℤ)) xs.flatten ys.flatten deriv with
  | none => none
  | some (z, d) => some (reshape2 xs.length (xs.headD []).length z, d)

/-- `rinter` called with both coordinates as 0-d scalars: execution reaches
line 132, where `np.concatenate((x_1, x0, x1, x2))` is applied to four 0-d
integer scalars and raises `ValueError: zero-dimensional arrays cannot be
concatenated`.  Modelled as `none`. -/
def rinterScalar (p : List ℚ) (x y : ℚ) (deriv : Bool) :
    Option (ℚ × Option (ℚ × ℚ)) :=
  none

/-- `rinter1d` instrumented with explicit state passing for the caller's
table: the returned list is the contents of the caller's array `p` when the
call returns.  On every executed path of the source the statements writing
array elements target arrays freshly allocated inside the call
(`c1 = p*0.` etc. lines 146-152 and 186-189, `p_new` line 141); the reshape
of line 129 rebinds the local name to a view without writing any element; the only statements that would write through an alias
of `p` (lines 105-107, `init` path) raise before any element is stored,
numpy validating the assignment first.  Hence the table is threaded through
unchanged. -/
def rinter1dStore (p : List ℚ) (xs ys : List ℚ) (deriv init : Bool) :
    Option ((List ℚ × Option (List ℚ × List ℚ)) × List ℚ) :=
  (rinter1d p xs ys deriv init).map (fun r => (r, p))

/-- State-threaded variant of `rinter2d`, as in `rinter1dStore`. -/
def rinter2dStore (p : List (List ℚ)) (xs ys : List ℚ) (deriv init : Bool) :
    Option ((List ℚ × Option (List ℚ × List ℚ)) × List (List ℚ)) :=
  (rinter2d p xs ys deriv init).map (fun r => (r, p))

/-- Shape-polymorphic numpy array of rationals: 0-d scalar, 1-D vector, or
2-D grid, as accepted for the coordinate arguments of `dao_value`. -/
inductive NArr where
  | scal : ℚ → NArr
  | one : List ℚ → NArr
  | two : List (List ℚ) → NArr
deriving DecidableEq

/-- Elementwise map over an `NArr` (numpy broadcasting of a scalar
operation), preserving the shape. -/
def NArr.map (f : ℚ → ℚ) : NArr → NArr
  | scal q => scal (f q)
  | one l => one (l.map f)
  | two g => two (g.map (fun r => r.map f))

/-- All elements of an `NArr`, row-major (the order `np.min`/`np.max`
reduce over). -/
def NArr.toList : NArr → List ℚ
  | scal q => [q]
  | one l => l
  | two g => g.flatten

/-- Numpy shape tuple of an `NArr`. -/
def NArr.shape : NArr → List Nat
  | scal _ => []
  | one l => [l.length]
  | two g => [g.length, (g.headD []).length]

/-- Elementwise combination of two equal-length vectors; numpy raises on a
shape mismatch (`none`). -/
def zipSameLen (f : ℚ → ℚ → ℚ) (a b : List ℚ) : Option (List ℚ) :=
  if a.length = b.length then some (List.zipWith f a b) else none

/-- Pointwise combination of four equal-length rows. -/
def zipWith4 (f : ℚ → ℚ → ℚ → ℚ → ℚ) :
    List ℚ → List ℚ → List ℚ → List ℚ → List ℚ
  | a :: as, b :: bs, c :: cs, d :: ds => f a b c d :: zipWith4 f as bs cs ds
  | _, _, _, _ => []

/-- Row interpolation step of `rinter` when the "flat" table is in fact the
2-D `psf` array (the `dao_value` line 101 call): `p[x_1]` etc. select whole
rows, and the scalar fractional part broadcasts over them, so the cubic is
taken rowwise. -/
def rowCubicOf (g : List (List ℚ)) (idx : ℤ) (d : ℚ) : Option (List ℚ) :=
  match npGet g (idx - 1), npGet g idx, npGet g (idx + 1), npGet g (idx + 2) with
  | some pm1, some p0, some p1, some p2 =>
      some (zipWith4 (fun a b c e => hornerVal a b c e d) pm1 p0 p1 p2)
  | _, _, _, _ => none

/-- `rinter(psf, x, y, deriv=False, ps1d=True)` where `psf` is the 2-D
lookup table (dao_value.py line 101): `len(p)` is the number of rows, so the
stride becomes `int(np.sqrt(len(psf)))` (rinter.py line 94), the table is
never flattened (line 127 is skipped because `ps1d` is true), and every
gather `p[...]` yields whole rows.  Modelled for a single coordinate pair —
with two or more samples the broadcast `xdist * c3[x_1]` of shapes `(n,)`
and `(n, npsf)` raises, and in the padding branch `p_new[0:plen] = p` cannot
broadcast the 2-D table into the freshly allocated 1-D `p_new`
(ValueError, `none`).  Negative base indices are outside the modelled range
as in `rinterFlat`. -/
def rinterRowsOne (g : List (List ℚ)) (x y : ℚ) : Option (List ℚ) :=
  let N : ℤ := (intSqrt g.length : ℤ)
  let xd := x - (pytrunc x : ℚ)
  let yd := y - (pytrunc y : ℚ)
  let b := baseOf N (x, y)
  if 0 ≤ b then
    if b + 3*N > (g.length : ℤ) - 3 then none
    else
      match rowCubicOf g b xd, rowCubicOf g (b + N) xd,
            rowCubicOf g (b + 2*N) xd, rowCubicOf g (b + 3*N) xd with
      | some ym1, some y0, some y1, some y2 =>
          some (zipWith4 (fun a bq c e => hornerVal a bq c e yd) ym1 y0 y1 y2)
      | _, _, _, _ => none
  else none

/-- Combination step of the `deriv` path of dao_value.py (lines 85-96):
given `daoerf`'s output `(e, pder0, pder1, pder2)` and the interpolator's
`(value, (dfdx, dfdy))`, form `value = e + value`, `dvdx = 2 dfdx - pder[1]`
and `dvdy = 2 dfdy - pder[2]` elementwise. -/
def daoDerivCombine (epd : List ℚ × List ℚ × List ℚ × List ℚ)
    (rres : Option (List ℚ × Option (List ℚ × List ℚ))) :
    Option (NArr × Option (NArr × NArr)) :=
  match rres with
  | some (v, some dd) =>
      (match zipSameLen (fun a b => a + b) epd.1 v,
             zipSameLen (fun a b => 2*a - b) dd.1 epd.2.2.1,
             zipSameLen (fun a b => 2*a - b) dd.2 epd.2.2.2 with
       | some value, some dvdx, some dvdy =>
           some (NArr.one value, some (NArr.one dvdx, NArr.one dvdy))
       | _, _, _ => none)
  | _ => none

/-- Table size `npsf = np.shape(psf)[1]` (dao_value.py lines 58-59): the
number of columns of the 2-D lookup table. -/
def npsfOf (psf : List (List ℚ)) : ℤ := ((psf.headD []).length : ℤ)

/-- Centre offset `half = (npsf - 1)/2.` (dao_value.py line 60). -/
def halfOf (psf : List (List ℚ)) : ℚ := ((npsfOf psf : ℚ) - 1) / 2

/-- Coordinate rescaling into lookup-table grid space, `2*xx + half`
(dao_value.py lines 62-63). -/
def rescale (psf : List (List ℚ)) (q : ℚ) : ℚ := 2 * q + halfOf psf

/-- `dao_value(xx, yy, gauss, psf, psf1d, deriv, ps1d)` (dao_value.py).

`derf` is the external Gaussian evaluator `daoerf`, which is not part of
this repository; per the spec's interface section it returns the value
vector and the three partial-derivative rows
`(e, pder[0], pder[1], pder[2])` for 1-D coordinate batches, and is kept
abstract as a function parameter.

Steps, with source lines:
  * `npsf = np.shape(psf)[1]`, `half = (npsf-1)/2`, rescale
    `x = 2 xx + half`, `y = 2 yy + half` (lines 58-63);
  * edge guard (lines 68-75): `np.min` of an empty array raises (`none`);
    otherwise, if any rescaled coordinate of the whole batch leaves
    `[1, npsf-2]`, return `xx*0` (and `xx*0, xx*0` when `deriv`), checked
    for `x` before `y` exactly as the short-circuit `or` does;
  * `deriv` and `ps1d` (lines 85-96): `daoerf` on the original coordinates,
    the residual interpolated from the *separate 1-D table* `psf1d`,
    `value = e + value`, `dvdx = 2 dfdx - pder[1]`,
    `dvdy = 2 dfdy - pder[2]`;
  * `deriv` without `ps1d` (lines 89, 93): for a 1-D coordinate batch the
    interpolated `value` is 1-D and
    `e.reshape(np.shape(value)[0], np.shape(value)[1])` raises IndexError
    (`none`); only 2-D batches reach further and they involve the external
    evaluator's 2-D behaviour, which is not specified — not modelled;
  * no `deriv`, `ps1d` (lines 100-101): the residual is interpolated *from
    the 2-D `psf` itself* (`rinter(psf, x, y, deriv=False, ps1d=True)`),
    `psf1d` is not consulted at all, and `value = e + rinter(...)`
    broadcasts the row-shaped result against `e` (only length-1 batches
    survive the broadcasts, see `rinterRowsOne`);
  * no `deriv`, no `ps1d` (lines 103-104): the same reshape of `e` raises
    for 1-D batches (`none`).
Scalar and 2-D coordinate batches past the guard are not modelled (`none`):
the scalar case raises inside `rinter` (see `rinterScalar`), the 2-D cases
depend on the unspecified 2-D behaviour of the external `daoerf`. -/
def dao_value
    (derf : List ℚ → List ℚ → List ℚ → List ℚ × List ℚ × List ℚ × List ℚ)
    (xx yy : NArr) (gauss : List ℚ) (psf : List (List ℚ)) (psf1d : List ℚ)
    (deriv ps1d : Bool) : Option (NArr × Option (NArr × NArr)) :=
  let x := xx.map (rescale psf)
  let y := yy.map (rescale psf)
  if x.toList = [] then none
  else if (∃ q ∈ x.toList, q < 1) ∨ (∃ q ∈ x.toList, ((npsfOf psf : ℚ) - 2) < q) then
    some (xx.map (fun _ => 0),
          match deriv with
          | true => some (xx.map (fun _ => 0), xx.map (fun _ => 0))
          | false => none)
  else if y.toList = [] then none
  else if (∃ q ∈ y.toList, q < 1) ∨ (∃ q ∈ y.toList, ((npsfOf psf : ℚ) - 2) < q) then
    some (xx.map (fun _ => 0),
          match deriv with
          | true => some (xx.map (fun _ => 0), xx.map (fun _ => 0))
          | false => none)
  else
    match deriv, ps1d, xx, yy with
    | true, true, NArr.one xl, NArr.one yl =>
        daoDerivCombine (derf xl yl gauss)
          (rinter1d psf1d (xl.map (rescale psf)) (yl.map (rescale psf))
            true false)
    | false, true, NArr.one xl, NArr.one yl =>
        (match xl, yl with
         | [xq], [yq] =>
             (match rinterRowsOne psf (rescale psf xq) (rescale psf yq) with
              | some zrow =>
                  (match (derf xl yl gauss).1 with
                   | [e0] => some (NArr.two [zrow.map (fun q => e0 + q)], none)
                   | _ => none)
              | none => none)
         | _, _ => none)
    | _, _, _, _ => none

/-- A 5x5 lookup table with distinct entries, row-major 0..24. -/
def tab5 : List (List ℚ) :=
  [[0, 1, 2, 3, 4], [5, 6, 7, 8, 9], [10, 11, 12, 13, 14],
   [15, 16, 17, 18, 19], [20, 21, 22, 23, 24]]

/-- A flat 5x5 table of ones. -/
def ones25 : List ℚ := List.replicate 25 1

/-- A flat 7x7 table of ones. -/
def ones49 : List ℚ := List.replicate 49 1

/-- A flat 7x7 table of zeros (an all-zero residual lookup table). -/
def zeros49 : List ℚ := List.replicate 49 0

/-- A 25-element table of squares, whose cubic interpolant has non-integral
derivatives away from the nodes. -/
def sq25 : List ℚ := (List.range 25).map (fun k => ((k*k : ℕ) : ℚ))

/-- A 7x7 table of zeros in 2-D form. -/
def psf7 : List (List ℚ) := List.replicate 7 (List.replicate 7 0)

/-- A 16-row, 16-column table whose row `k` is constantly `k`, making the
row actually consumed by an interpolation visible in the output. -/
def psf16 : List (List ℚ) :=
  (List.range 16).map (fun k => List.replicate 16 (k : ℚ))

/-- Concrete stand-ins for the external `daoerf` used in closed instances. -/
def derfC : List ℚ → List ℚ → List ℚ → List ℚ × List ℚ × List ℚ × List ℚ :=
  fun _ _ _ => ([100], [0], [0], [0])

/-- A `daoerf` stand-in with nonzero partials, for derivative checks. -/
def derfW : List ℚ → List ℚ → List ℚ → List ℚ × List ℚ × List ℚ × List ℚ :=
  fun _ _ _ => ([5], [9], [7], [11])

/-- Two 2x2 tables with the same shape but different values. -/
def psfA : List (List ℚ) := [[1, 2], [3, 4]]

/-- Second of the two same-shape tables, see `psfA`. -/
def psfB : List (List ℚ) := [[50, 60], [70, 80]]

theorem pytrunc_intCast (n : ℤ) : pytrunc (n : ℚ) = n := by
  unfold pytrunc
  split_ifs with h
  · rw [← Int.cast_neg, Int.floor_intCast, neg_neg]
  · exact Int.floor_intCast n

theorem pytrunc_natCast (n : ℕ) : pytrunc (n : ℚ) = n := by
  have : ((n : ℤ) : ℚ) = (n : ℚ) := by push_cast; rfl
  rw [← this, pytrunc_intCast]

theorem npGet_eq_some {α : Type} (l : List α) (k : ℤ)
    (h1 : -(l.length : ℤ) ≤ k) (h2 : k < (l.length : ℤ)) :
    ∃ v, npGet l k = some v := by
  unfold npGet
  by_cases hk : k < 0
  · have hj : (0:ℤ) ≤ k + l.length := by omega
    have hjlt : (k + l.length).toNat < l.length := by omega
    exact ⟨l.get ⟨(k + l.length).toNat, hjlt⟩, by
      simp only [hk, if_true, if_pos hj]
      exact List.get?_eq_get hjlt⟩
  · have hk0 : (0:ℤ) ≤ k := le_of_not_lt hk
    have hlt : k.toNat < l.length := by omega
    exact ⟨l.get ⟨k.toNat, hlt⟩, by
      simp only [hk, if_false, if_pos hk0]
      exact List.get?_eq_get hlt⟩

theorem npGet_of_nonneg {α : Type} (l : List α) (k : ℤ) (hk : 0 ≤ k) :
    npGet l k = l.get? k.toNat := by
  unfold npGet
  simp only [not_lt.mpr hk, if_false, if_pos hk]

theorem hornerVal_zero (pm1 p0 p1 p2 : ℚ) : hornerVal pm1 p0 p1 p2 0 = p0 := by
  unfold hornerVal
  ring

theorem cubicOf_zero (g : ℚ × ℚ × ℚ × ℚ) : cubicOf g 0 = g.2.1 :=
  hornerVal_zero g.1 g.2.1 g.2.2.1 g.2.2.2

theorem gather4_eq_some (T : List ℚ) (idx : ℤ) (hT : T ≠ []) (h0 : 0 ≤ idx)
    (h2 : idx + 2 < (T.length : ℤ)) :
    ∃ g, gather4 T idx = some g ∧ npGet T idx = some g.2.1 := by
  have hlen : (1:ℤ) ≤ (T.length : ℤ) := by
    have := List.length_pos.mpr hT
    omega
  obtain ⟨a, ha⟩ := npGet_eq_some T (idx - 1) (by omega) (by omega)
  obtain ⟨b, hb⟩ := npGet_eq_some T idx (by omega) (by omega)
  obtain ⟨c, hc⟩ := npGet_eq_some T (idx + 1) (by omega) (by omega)
  obtain ⟨d, hd⟩ := npGet_eq_some T (idx + 2) (by omega) (by omega)
  exact ⟨(a, b, c, d), by simp [gather4, ha, hb, hc, hd], hb⟩

theorem sampleEval_isSome (T : List ℚ) (N : ℤ) (x y : ℚ) (hT : T ≠ []) (hN : 0 ≤ N)
    (hb : 0 ≤ baseOf N (x, y)) (hub : baseOf N (x, y) + 3*N + 2 < (T.length : ℤ)) :
    ∃ r, sampleEval T N x y = some r := by
  obtain ⟨g1, hg1, _⟩ := gather4_eq_some T (baseOf N (x, y)) hT hb (by omega)
  obtain ⟨g2, hg2, _⟩ := gather4_eq_some T (baseOf N (x, y) + N) hT (by omega) (by omega)
  obtain ⟨g3, hg3, _⟩ := gather4_eq_some T (baseOf N (x, y) + 2*N) hT (by omega) (by omega)
  obtain ⟨g4, hg4, _⟩ := gather4_eq_some T (baseOf N (x, y) + 3*N) hT (by omega) (by omega)
  have hs : (sampleEval T N x y).isSome = true := by
    simp only [sampleEval, hg1, hg2, hg3, hg4, Option.isSome_some]
  exact Option.isSome_iff_exists.mp hs

theorem optMap_length {α β : Type} (l : List α) (f : α → Option β) (res : List β)
    (h : optMap l f = some res) : res.length = l.length := by
  induction l generalizing res with
  | nil =>
      simp only [optMap, Option.some.injEq] at h
      rw [← h]
      rfl
  | cons a as ih =>
      unfold optMap at h
      cases hfa : f a with
      | none => rw [hfa] at h; exact absurd h (by simp)
      | some b =>
          rw [hfa] at h
          cases hrec : optMap as f with
          | none => rw [hrec] at h; exact absurd h (by simp)
          | some bs =>
              rw [hrec] at h
              simp only [Option.some.injEq] at h
              rw [← h]
              simp [ih bs hrec]

theorem optMap_isSome {α β : Type} (l : List α) (f : α → Option β)
    (h : ∀ a ∈ l, ∃ b, f a = some b) : ∃ res, optMap l f = some res := by
  induction l with
  | nil => exact ⟨[], rfl⟩
  | cons a as ih =>
      obtain ⟨b, hb⟩ := h a (by simp)
      obtain ⟨bs, hbs⟩ := ih (fun a2 ha2 => h a2 (by simp [ha2]))
      exact ⟨b :: bs, by simp [optMap, hb, hbs]⟩

theorem le_foldl_max (l : List ℤ) (a : ℤ) : a ≤ l.foldl max a := by
  induction l generalizing a with
  | nil => simp
  | cons x xs ih => exact le_trans (le_max_left a x) (ih (max a x))

theorem foldl_max_le_of_mem : ∀ (l : List ℤ) (a x : ℤ), x ∈ l → x ≤ l.foldl max a
  | [], _, _, hx => absurd hx (List.not_mem_nil _)
  | y :: ys, a, x, hx => by
      rcases List.mem_cons.mp hx with h | h
      · subst h
        show x ≤ List.foldl max (max a x) ys
        exact le_trans (le_max_right a x) (le_foldl_max ys (max a x))
      · show x ≤ List.foldl max (max a y) ys
        exact foldl_max_le_of_mem ys (max a y) x h

theorem listMaxZ_spec (l : List ℤ) (hl : l ≠ []) :
    ∃ m, listMaxZ l = some m ∧ ∀ x ∈ l, x ≤ m := by
  cases l with
  | nil => exact absurd rfl hl
  | cons a as =>
      refine ⟨as.foldl max a, rfl, ?_⟩
      intro x hx
      rcases List.mem_cons.mp hx with h | h
      · subst h
        exact le_foldl_max as x
      · exact foldl_max_le_of_mem as a x h

theorem sampleEval_int_node (T : List ℚ) (N a b : ℤ) (hT : T ≠ []) (hN : 0 ≤ N)
    (hb : 0 ≤ N * (b - 1) + a) (hub : N * (b - 1) + a + 3*N + 2 < (T.length : ℤ)) :
    ∃ v dx dy, sampleEval T N (a : ℚ) (b : ℚ) = some (v, dx, dy) ∧
      npGet T (N * b + a) = some v := by
  have hbase : baseOf N ((a : ℚ), (b : ℚ)) = N * (b - 1) + a := by
    simp [baseOf, pytrunc_intCast]
  obtain ⟨g1, hg1, _⟩ := gather4_eq_some T (N*(b-1)+a) hT hb (by omega)
  obtain ⟨g2, hg2, hg2v⟩ := gather4_eq_some T (N*(b-1)+a + N) hT (by omega) (by omega)
  obtain ⟨g3, hg3, _⟩ := gather4_eq_some T (N*(b-1)+a + 2*N) hT (by omega) (by omega)
  obtain ⟨g4, hg4, _⟩ := gather4_eq_some T (N*(b-1)+a + 3*N) hT (by omega) (by omega)
  have hx0 : (a : ℚ) - ((pytrunc (a : ℚ) : ℤ) : ℚ) = 0 := by
    rw [pytrunc_intCast]; ring
  have hy0 : (b : ℚ) - ((pytrunc (b : ℚ) : ℤ) : ℚ) = 0 := by
    rw [pytrunc_intCast]; ring
  refine ⟨cubicOf g2 0, cubicDOf g2 0,
    hornerDer (cubicOf g1 0) (cubicOf g2 0) (cubicOf g3 0) (cubicOf g4 0) 0, ?_, ?_⟩
  · simp only [sampleEval, hbase, hg1, hg2, hg3, hg4, hx0, hy0, hornerVal_zero]
  · have harith : N * (b - 1) + a + N = N * b + a := by ring
    rw [← harith, hg2v, cubicOf_zero]

theorem rinterBody_isSome (T : List ℚ) (N : ℤ) (samples : List (ℚ × ℚ)) (deriv : Bool)
    (h : ∀ s ∈ samples, ∃ r, sampleEval T N s.1 s.2 = some r) :
    ∃ r, rinterBody T N samples deriv = some r := by
  obtain ⟨rs, hrs⟩ := optMap_isSome samples _ h
  have hs : (rinterBody T N samples deriv).isSome = true := by
    cases deriv <;> simp only [rinterBody, hrs, Option.isSome_some]
  exact Option.isSome_iff_exists.mp hs

theorem rinterBody_some_lengths (T : List ℚ) (N : ℤ) (samples : List (ℚ × ℚ))
    (deriv : Bool) (z : List ℚ) (d : Option (List ℚ × List ℚ))
    (h : rinterBody T N samples deriv = some (z, d)) :
    z.length = samples.length ∧
      ∀ dx dy, d = some (dx, dy) →
        dx.length = samples.length ∧ dy.length = samples.length := by
  unfold rinterBody at h
  cases ho : optMap samples (fun s => sampleEval T N s.1 s.2) with
  | none => rw [ho] at h; exact absurd h (by simp)
  | some rs =>
      rw [ho] at h
      have hrl := optMap_length _ _ _ ho
      cases deriv with
      | true =>
          simp only [Option.some.injEq, Prod.mk.injEq] at h
          obtain ⟨hz, hd⟩ := h
          refine ⟨by rw [← hz, List.length_map, hrl], ?_⟩
          intro dx dy hdd
          rw [← hd] at hdd
          simp only [Option.some.injEq, Prod.mk.injEq] at hdd
          obtain ⟨h1, h2⟩ := hdd
          exact ⟨by rw [← h1, List.length_map, hrl], by rw [← h2, List.length_map, hrl]⟩
      | false =>
          simp only [Option.some.injEq, Prod.mk.injEq] at h
          obtain ⟨hz, hd⟩ := h
          refine ⟨by rw [← hz, List.length_map, hrl], ?_⟩
          intro dx dy hdd
          rw [← hd] at hdd
          exact absurd hdd (by simp)

theorem rinterFlat_run (p : List ℚ) (N : ℤ) (xs ys : List ℚ) (deriv : Bool)
    (hlen : xs.length = ys.length) (hne : xs ≠ [])
    (hb : ∀ s ∈ xs.zip ys, 0 ≤ baseOf N s) :
    ∃ m, listMaxZ ((xs.zip ys).bind (fun s =>
        [baseOf N s, baseOf N s + N, baseOf N s + 2*N, baseOf N s + 3*N]))
      = some m ∧
      (∀ s ∈ xs.zip ys, baseOf N s + 3*N ≤ m) ∧
      rinterFlat p N xs ys deriv = rinterDispatch p N (xs.zip ys) deriv m := by
  have hzip : xs.zip ys ≠ [] := by
    cases xs with
    | nil => exact absurd rfl hne
    | cons x xs2 =>
        cases ys with
        | nil => simp at hlen
        | cons y ys2 => simp
  obtain ⟨s0, ss, hcons⟩ : ∃ s0 ss, xs.zip ys = s0 :: ss := by
    cases hzz : xs.zip ys with
    | nil => exact absurd hzz hzip
    | cons s0 ss => exact ⟨s0, ss, rfl⟩
  set A := (xs.zip ys).bind (fun s =>
      [baseOf N s, baseOf N s + N, baseOf N s + 2*N, baseOf N s + 3*N]) with hA
  have hAne : A ≠ [] := by
    rw [hA, hcons]
    simp [List.cons_bind]
  obtain ⟨m, hm, hmax⟩ := listMaxZ_spec A hAne
  have hmem : ∀ s ∈ xs.zip ys, baseOf N s + 3*N ≤ m := by
    intro s hs
    exact hmax _ (by rw [hA]; exact List.mem_bind.mpr ⟨s, hs, by simp⟩)
  refine ⟨m, hm, hmem, ?_⟩
  simp only [rinterFlat]
  rw [if_pos hlen, dif_pos hb, ← hA, hm]

theorem rinterFlat_isSome (p : List ℚ) (N : ℤ) (xs ys : List ℚ) (deriv : Bool)
    (hp : p ≠ []) (hN : 0 ≤ N) (hlen : xs.length = ys.length) (hne : xs ≠ [])
    (hb : ∀ s ∈ xs.zip ys, 0 ≤ baseOf N s) :
    ∃ r, rinterFlat p N xs ys deriv = some r := by
  obtain ⟨m, hm, hmem, heq⟩ := rinterFlat_run p N xs ys deriv hlen hne hb
  rw [heq]
  unfold rinterDispatch
  have hbody : ∀ T : List ℚ, T ≠ [] →
      (∀ s ∈ xs.zip ys, baseOf N s + 3*N + 2 < (T.length : ℤ)) →
      ∃ r, rinterBody T N (xs.zip ys) deriv = some r := by
    intro T hT hub
    apply rinterBody_isSome
    intro s hs
    exact sampleEval_isSome T N s.1 s.2 hT hN (hb s hs) (hub s hs)
  by_cases hpad : m > (p.length : ℤ) - 3
  · rw [if_pos hpad, if_neg hp]
    have hplen : 0 < p.length := List.length_pos.mpr hp
    have h0 : (0:ℤ) ≤ m + 3 - p.length := by omega
    have hTlen : (((p ++ List.replicate (m + 3 - p.length).toNat
        (p.getLastD 0)).length : ℕ) : ℤ) = m + 3 := by
      rw [List.length_append, List.length_replicate]
      push_cast [Int.toNat_of_nonneg h0]
      omega
    have hTne : p ++ List.replicate (m + 3 - p.length).toNat (p.getLastD 0) ≠ [] := by
      apply List.length_pos.mp
      rw [List.length_append]
      omega
    exact hbody _ hTne (fun s hs => by have := hmem s hs; omega)
  · rw [if_neg hpad]
    exact hbody p hp (fun s hs => by have := hmem s hs; omega)
theorem rinterFlat_some_lengths (p : List ℚ) (N : ℤ) (xs ys : List ℚ) (deriv : Bool)
    (z : List ℚ) (d : Option (List ℚ × List ℚ))
    (h : rinterFlat p N xs ys deriv = some (z, d)) :
    z.length = xs.length ∧
      ∀ dx dy, d = some (dx, dy) → dx.length = xs.length ∧ dy.length = xs.length := by
  simp only [rinterFlat] at h
  by_cases hlen : xs.length = ys.length
  case neg => rw [if_neg hlen] at h; exact absurd h (by simp)
  rw [if_pos hlen] at h
  by_cases hball : ∀ s ∈ xs.zip ys, 0 ≤ baseOf N s
  case neg => rw [dif_neg hball] at h; exact absurd h (by simp)
  rw [dif_pos hball] at h
  cases hm : listMaxZ ((xs.zip ys).bind fun s =>
      [baseOf N s, baseOf N s + N, baseOf N s + 2*N, baseOf N s + 3*N]) with
  | none => rw [hm] at h; exact absurd h (by simp)
  | some m =>
      rw [hm] at h
      have h2 : rinterDispatch p N (xs.zip ys) deriv m = some (z, d) := h
      unfold rinterDispatch at h2
      have hzip : (xs.zip ys).length = xs.length := by
        rw [List.length_zip, hlen, min_self]
      by_cases hpad : m > (p.length : ℤ) - 3
      · rw [if_pos hpad] at h2
        by_cases hpe : p = []
        · rw [if_pos hpe] at h2; exact absurd h2 (by simp)
        · rw [if_neg hpe] at h2
          have hout := rinterBody_some_lengths _ _ _ _ _ _ h2
          rw [hzip] at hout
          exact hout
      · rw [if_neg hpad] at h2
        have hout := rinterBody_some_lengths _ _ _ _ _ _ h2
        rw [hzip] at hout
        exact hout

theorem length_join_rect {α : Type} (g : List (List α)) (C : ℕ)
    (h : ∀ r ∈ g, r.length = C) : g.flatten.length = g.length * C := by
  induction g with
  | nil => simp
  | cons r rs ih =>
      rw [List.flatten_cons, List.length_append, h r (by simp),
        ih (fun r2 hr2 => h r2 (by simp [hr2])), List.length_cons, Nat.succ_mul]
      omega

theorem join_get_rect {α : Type} (g : List (List α)) (C : ℕ)
    (h : ∀ r ∈ g, r.length = C) (j i : ℕ) (hi : i < C) (row : List α)
    (hrow : g.get? j = some row) :
    g.flatten.get? (C * j + i) = row.get? i := by
  induction g generalizing j with
  | nil => simp at hrow
  | cons r rs ih =>
      cases j with
      | zero =>
          simp only [List.get?_cons_zero, Option.some.injEq] at hrow
          subst hrow
          rw [Nat.mul_zero, Nat.zero_add, List.flatten_cons]
          exact List.get?_append (by rw [h r (by simp)]; exact hi)
      | succ j1 =>
          have hr : r.length = C := h r (by simp)
          have harith : C * (j1 + 1) + i = r.length + (C * j1 + i) := by
            rw [hr]; ring
          rw [List.flatten_cons, harith,
            List.get?_append_right (by omega)]
          have h2 : r.length + (C * j1 + i) - r.length = C * j1 + i := by omega
          rw [h2]
          exact ih (fun r2 hr2 => h r2 (by simp [hr2])) j1 (by simpa using hrow)

theorem reshape2_length (r c : ℕ) (l : List ℚ) : (reshape2 r c l).length = r := by
  induction r generalizing l with
  | zero => rfl
  | succ r1 ih => simp [reshape2, ih]

theorem reshape2_rows (r c : ℕ) (l : List ℚ) (hl : l.length = r * c) :
    ∀ row ∈ reshape2 r c l, row.length = c := by
  induction r generalizing l with
  | zero => intro row hrow; simp [reshape2] at hrow
  | succ r1 ih =>
      intro row hrow
      simp only [reshape2, List.mem_cons] at hrow
      rcases hrow with h | h
      · subst h
        rw [List.length_take]
        have hc : c ≤ l.length := by rw [hl, Nat.succ_mul]; omega
        omega
      · exact ih (l.drop c)
          (by rw [List.length_drop, hl, Nat.succ_mul]; omega) row h

theorem zipWith_add_replicate_zero (e : List ℚ) :
    List.zipWith (fun a b => a + b) e (List.replicate e.length 0) = e := by
  induction e with
  | nil => rfl
  | cons a as ih => simp [List.replicate_succ, ih]

theorem zipWith_sub_replicate_zero (pd : List ℚ) :
    List.zipWith (fun a b => 2*a - b) (List.replicate pd.length 0) pd
      = pd.map (fun b => -b) := by
  induction pd with
  | nil => rfl
  | cons a as ih =>
      simp only [List.length_cons, List.replicate_succ, List.zipWith_cons_cons,
        List.map_cons, ih]
      congr 1
      ring

theorem NArr.shape_map (f : ℚ → ℚ) (a : NArr) : (NArr.map f a).shape = a.shape := by
  cases a with
  | scal q => rfl
  | one l => simp [NArr.map, NArr.shape]
  | two g =>
      cases g with
      | nil => rfl
      | cons r rs => simp [NArr.map, NArr.shape]

/-- C3: the interpolator's cubic coefficients are
`c1 = 0.5(p1 - p_1)`, `c2 = 2 p1 + p_1 - 0.5(5 p0 + p2)`,
`c3 = 0.5(3(p0 - p1) + p2 - p_1)` with Horner evaluation
`y = d(d(d c3 + c2) + c1) + p0` — this polynomial coincides with the
Catmull-Rom (a = -1/2) cubic-convolution kernel — and every interpolated
value is the column-direction cubic of the four row-direction cubics of the
gathered 4-tap neighbourhoods (separable bicubic, rows first with the x
fractional part, then the column direction with the y fractional part). -/
theorem rinter_cubic_kernel_catmull_rom :
    (∀ pm1 p0 p1 p2 d : ℚ, hornerVal pm1 p0 p1 p2 d = catmullRom pm1 p0 p1 p2 d) ∧
    (∀ (T : List ℚ) (N : ℤ) (x y : ℚ) (v dx dy : ℚ),
      sampleEval T N x y = some (v, dx, dy) →
      ∃ g1 g2 g3 g4,
        gather4 T (baseOf N (x, y)) = some g1 ∧
        gather4 T (baseOf N (x, y) + N) = some g2 ∧
        gather4 T (baseOf N (x, y) + 2*N) = some g3 ∧
        gather4 T (baseOf N (x, y) + 3*N) = some g4 ∧
        v = hornerVal (cubicOf g1 (x - (pytrunc x : ℚ)))
              (cubicOf g2 (x - (pytrunc x : ℚ)))
              (cubicOf g3 (x - (pytrunc x : ℚ)))
              (cubicOf g4 (x - (pytrunc x : ℚ)))
              (y - (pytrunc y : ℚ))) := by
  constructor
  · intro pm1 p0 p1 p2 d
    unfold hornerVal catmullRom
    ring
  · intro T N x y v dx dy h
    simp only [sampleEval] at h
    split at h
    · rename_i g1 g2 g3 g4 hg1 hg2 hg3 hg4
      simp only [Option.some.injEq, Prod.mk.injEq] at h
      exact ⟨g1, g2, g3, g4, hg1, hg2, hg3, hg4, h.1.symm⟩
    · exact absurd h (by simp)

section RatEval

attribute [local semireducible] Rat.add Rat.sub Rat.mul Rat.inv Rat.ofScientific

/-- Witness for C3: the kernel identity at one input, and the separable
structure at one concrete sample. -/
theorem rinter_cubic_kernel_catmull_rom_witness :
    (hornerVal 1 2 3 4 (1/2) = catmullRom 1 2 3 4 (1/2)) ∧
    ∃ g1 g2 g3 g4,
      gather4 (List.replicate 16 1) (baseOf 3 (1, 1)) = some g1 ∧
      gather4 (List.replicate 16 1) (baseOf 3 (1, 1) + 3) = some g2 ∧
      gather4 (List.replicate 16 1) (baseOf 3 (1, 1) + 2*3) = some g3 ∧
      gather4 (List.replicate 16 1) (baseOf 3 (1, 1) + 3*3) = some g4 ∧
      (1 : ℚ) = hornerVal (cubicOf g1 ((1:ℚ) - (pytrunc 1 : ℚ)))
        (cubicOf g2 ((1:ℚ) - (pytrunc 1 : ℚ)))
        (cubicOf g3 ((1:ℚ) - (pytrunc 1 : ℚ)))
        (cubicOf g4 ((1:ℚ) - (pytrunc 1 : ℚ)))
        ((1:ℚ) - (pytrunc 1 : ℚ)) :=
  ⟨rinter_cubic_kernel_catmull_rom.1 1 2 3 4 (1/2),
   rinter_cubic_kernel_catmull_rom.2 (List.replicate 16 1) 3 1 1 1 0 0 (by decide)⟩

end RatEval


theorem rinterBody_single_node (T : List ℚ) (N i j : ℕ) (val : ℚ)
    (hT : T ≠ [])
    (hb : 0 ≤ (N:ℤ) * ((j:ℤ) - 1) + (i:ℤ))
    (hub : (N:ℤ) * ((j:ℤ) - 1) + (i:ℤ) + 3*(N:ℤ) + 2 < (T.length : ℤ))
    (hval : T.get? (N*j + i) = some val) :
    rinterBody T (N:ℤ) [((i:ℚ), (j:ℚ))] false = some ([val], none) := by
  have hNz : (0:ℤ) ≤ (N:ℤ) := Int.natCast_nonneg N
  obtain ⟨v, dx, dy, heval, hvget⟩ :=
    sampleEval_int_node T (N:ℤ) (i:ℤ) (j:ℤ) hT hNz hb hub
  have hcast : sampleEval T (N:ℤ) ((i:ℕ):ℚ) ((j:ℕ):ℚ) = some (v, dx, dy) := by
    have h1 : (((i:ℤ)):ℚ) = ((i:ℕ):ℚ) := by push_cast; rfl
    have h2 : (((j:ℤ)):ℚ) = ((j:ℕ):ℚ) := by push_cast; rfl
    rw [← h1, ← h2]
    exact heval
  have hvv : v = val := by
    have hidx : ((N:ℤ) * (j:ℤ) + (i:ℤ)) = ((N*j+i : ℕ) : ℤ) := by push_cast; ring
    rw [hidx, npGet_of_nonneg _ _ (Int.natCast_nonneg _), Int.toNat_natCast,
      hval] at hvget
    exact (Option.some.inj hvget).symm
  rw [hvv] at hcast
  simp [rinterBody, optMap, hcast]

/-- C2: interpolating with `rinter` at coordinates exactly equal to an
interior integer grid node `(i, j)` returns the table value stored at that
node (row `j`, column `i`): the fractional parts are zero, so each cubic
evaluates to its central sample. -/
theorem rinter_exact_at_nodes (p : List (List ℚ)) (N : ℕ) (i j : ℕ)
    (row : List ℚ) (val : ℚ)
    (hN : 3 ≤ N) (hsq : p.length = N) (hrect : ∀ r ∈ p, r.length = N)
    (hi1 : 1 ≤ i) (hi2 : i ≤ N - 2) (hj1 : 1 ≤ j) (hj2 : j ≤ N - 2)
    (hrow : p.get? j = some row) (hval : row.get? i = some val) :
    rinter2d p [(i : ℚ)] [(j : ℚ)] false false = some ([val], none) := by
  have hpne : p ≠ [] := by
    intro hcon
    rw [hcon] at hsq
    simp at hsq
    omega
  have hhead : (p.headD []).length = N := by
    cases p with
    | nil => exact absurd rfl hpne
    | cons r rs => exact hrect r (by simp)
  -- reduce the wrapper to the flat core with stride N
  show rinterFlat p.flatten (((p.headD []).length : ℕ) : ℤ) [(i:ℚ)] [(j:ℚ)]
      false = some ([val], none)
  rw [hhead]
  -- facts about the flattened table
  have hflatlen : p.flatten.length = N * N := by
    rw [length_join_rect p N hrect, hsq]
  have hflatne : p.flatten ≠ [] := by
    apply List.length_pos.mp
    rw [hflatlen]
    exact Nat.mul_pos (by omega) (by omega)
  -- the base index and its bounds
  have hbase : baseOf (N:ℤ) ((i:ℚ), (j:ℚ)) = (N:ℤ) * ((j:ℤ) - 1) + (i:ℤ) := by
    have hpi : pytrunc ((i:ℕ):ℚ) = (i:ℤ) := pytrunc_natCast i
    have hpj : pytrunc ((j:ℕ):ℚ) = (j:ℤ) := pytrunc_natCast j
    simp [baseOf, hpi, hpj]
  have hNz : (3:ℤ) ≤ (N:ℤ) := by exact_mod_cast hN
  have hj1z : (1:ℤ) ≤ (j:ℤ) := by exact_mod_cast hj1
  have hi1z : (1:ℤ) ≤ (i:ℤ) := by exact_mod_cast hi1
  have hj2z : (j:ℤ) ≤ (N:ℤ) - 2 := by omega
  have hi2z : (i:ℤ) ≤ (N:ℤ) - 2 := by omega
  have hb0 : 0 ≤ (N:ℤ) * ((j:ℤ) - 1) + (i:ℤ) := by
    have : (0:ℤ) ≤ (N:ℤ) * ((j:ℤ) - 1) :=
      mul_nonneg (by omega) (by omega)
    omega
  -- the flattened node index is inside the real table
  have hmul : (N:ℤ)*(j:ℤ) ≤ (N:ℤ)*((N:ℤ)-2) :=
    mul_le_mul_of_nonneg_left hj2z (by omega)
  have hexp : (N:ℤ)*((N:ℤ)-2) = (N:ℤ)*(N:ℤ) - 2*(N:ℤ) := by ring
  rw [hexp] at hmul
  have hidxlt : (N:ℤ)*(j:ℤ)+(i:ℤ) < (N:ℤ)*(N:ℤ) := by omega
  have hidxltN : N*j+i < N*N := by
    have hc : ((N*j+i : ℕ) : ℤ) < ((N*N : ℕ) : ℤ) := by push_cast; exact hidxlt
    exact_mod_cast hc
  -- the node value in the flattened table
  have hflatval : p.flatten.get? (N*j + i) = some val := by
    rw [join_get_rect p N hrect j i (by omega) row hrow, hval]
  -- run the core
  obtain ⟨m, hm, hmem, heq⟩ :=
    rinterFlat_run p.flatten (N:ℤ) [(i:ℚ)] [(j:ℚ)] false rfl (by simp)
      (by
        intro s hs
        have hs2 : s = ((i:ℚ), (j:ℚ)) := by
          simpa using hs
        rw [hs2, hbase]
        exact hb0)
  have hmlow : (N:ℤ) * ((j:ℤ) - 1) + (i:ℤ) + 3*(N:ℤ) ≤ m := by
    have := hmem ((i:ℚ), (j:ℚ)) (by simp)
    rw [hbase] at this
    exact this
  rw [heq]
  unfold rinterDispatch
  by_cases hpad : m > (p.flatten.length : ℤ) - 3
  · rw [if_pos hpad, if_neg hflatne]
    have hplen : 0 < p.flatten.length := by omega
    have h0 : (0:ℤ) ≤ m + 3 - p.flatten.length := by omega
    have hTlen : ((p.flatten ++ List.replicate (m + 3 - p.flatten.length).toNat
        (p.flatten.getLastD 0)).length : ℤ) = m + 3 := by
      rw [List.length_append, List.length_replicate]
      push_cast [Int.toNat_of_nonneg h0]
      omega
    have hTne : p.flatten ++ List.replicate (m + 3 - p.flatten.length).toNat
        (p.flatten.getLastD 0) ≠ [] := by
      apply List.length_pos.mp
      rw [List.length_append]
      omega
    have hTval : (p.flatten ++ List.replicate (m + 3 - p.flatten.length).toNat
        (p.flatten.getLastD 0)).get? (N*j + i) = some val := by
      rw [List.get?_append (by rw [hflatlen]; exact hidxltN)]
      exact hflatval
    show rinterBody _ (N:ℤ) (List.zip [(i:ℚ)] [(j:ℚ)]) false = some ([val], none)
    exact rinterBody_single_node _ N i j val hTne hb0 (by omega) hTval
  · rw [if_neg hpad]
    show rinterBody p.flatten (N:ℤ) (List.zip [(i:ℚ)] [(j:ℚ)]) false
      = some ([val], none)
    exact rinterBody_single_node _ N i j val hflatne hb0 (by omega) hflatval

section RatEval

attribute [local semireducible] Rat.add Rat.sub Rat.mul Rat.inv Rat.ofScientific

/-- Witness for C2 on a concrete 5x5 table at node `(2, 3)`. -/
theorem rinter_exact_at_nodes_witness :
    rinter2d tab5 [((2:ℕ):ℚ)] [((3:ℕ):ℚ)] false false = some ([17], none) :=
  rinter_exact_at_nodes tab5 5 2 3 [15, 16, 17, 18, 19] 17
    (by omega) (by decide) (by decide) (by omega) (by omega) (by omega) (by omega)
    (by decide) (by decide)

end RatEval

/-- C7: when the union of needed neighbour indices overruns the flat table
(`max(xgood) > len(p) - 3`), `rinter`'s core pads the table by repeating its
last value instead of erroring, and the whole evaluation — including the
accesses at `index - 1`, `index + 1` and `index + 2` of every needed row
index — stays within bounds, so the call returns a result (`isSome`)
computed over the edge-clamped table. -/
theorem rinter_padding_in_bounds (p : List ℚ) (N : ℤ) (xs ys : List ℚ)
    (deriv : Bool)
    (hp : p ≠ []) (hN : 0 ≤ N) (hlen : xs.length = ys.length) (hne : xs ≠ [])
    (hb : ∀ s ∈ xs.zip ys, 0 ≤ baseOf N s)
    (hover : ∃ s ∈ xs.zip ys, (p.length : ℤ) - 3 < baseOf N s + 3*N) :
    (rinterFlat p N xs ys deriv).isSome = true ∧
    ∃ m, listMaxZ ((xs.zip ys).bind (fun s =>
        [baseOf N s, baseOf N s + N, baseOf N s + 2*N, baseOf N s + 3*N]))
      = some m ∧
      (p.length : ℤ) - 3 < m ∧
      rinterFlat p N xs ys deriv
        = rinterBody (p ++ List.replicate (m + 3 - p.length).toNat
            (p.getLastD 0)) N (xs.zip ys) deriv := by
  obtain ⟨m, hm, hmem, heq⟩ := rinterFlat_run p N xs ys deriv hlen hne hb
  have hpad : (p.length : ℤ) - 3 < m := by
    obtain ⟨s, hs, hlt⟩ := hover
    have := hmem s hs
    omega
  have heq2 : rinterFlat p N xs ys deriv
      = rinterBody (p ++ List.replicate (m + 3 - p.length).toNat
          (p.getLastD 0)) N (xs.zip ys) deriv := by
    rw [heq]
    unfold rinterDispatch
    rw [if_pos (by omega), if_neg hp]
  refine ⟨?_, m, hm, hpad, heq2⟩
  rw [heq2]
  have hplen : 0 < p.length := List.length_pos.mpr hp
  have h0 : (0:ℤ) ≤ m + 3 - p.length := by omega
  have hTlen : ((p ++ List.replicate (m + 3 - p.length).toNat
      (p.getLastD 0)).length : ℤ) = m + 3 := by
    rw [List.length_append, List.length_replicate]
    push_cast [Int.toNat_of_nonneg h0]
    omega
  have hTne : p ++ List.replicate (m + 3 - p.length).toNat (p.getLastD 0) ≠ [] := by
    apply List.length_pos.mp
    rw [List.length_append]
    omega
  obtain ⟨r, hr⟩ := rinterBody_isSome _ N (xs.zip ys) deriv (by
    intro s hs
    exact sampleEval_isSome _ N s.1 s.2 hTne hN (hb s hs)
      (by
        have h1 := hmem s hs
        have heta : baseOf N (s.1, s.2) = baseOf N s := rfl
        omega))
  rw [hr]
  rfl

section RatEval

attribute [local semireducible] Rat.add Rat.sub Rat.mul Rat.inv Rat.ofScientific

/-- Witness for C7: a 3-element table with stride 2 forces the needed
indices past the table end; the call still succeeds. -/
theorem rinter_padding_in_bounds_witness :
    (rinterFlat [1, 2, 3] 2 [1] [1] false).isSome = true :=
  (rinter_padding_in_bounds [1, 2, 3] 2 [1] [1] false (by decide) (by decide)
    rfl (by decide) (by decide) (by decide)).1

end RatEval

section RatEval

attribute [local semireducible] Rat.add Rat.sub Rat.mul Rat.inv Rat.ofScientific

/-- Counterexample to C6 as stated: giving the single pair directly as
scalars does not yield the same result as the 1-element batch — the scalar
call fails (numpy raises at the `np.concatenate` of the 0-d index scalars)
while the batch call returns a value. -/
theorem rinter_scalar_vs_batch_cex :
    rinterScalar ones25 2 2 false = none ∧
    rinter1d ones25 [2] [2] false false = some ([1], none) :=
  ⟨rfl, by decide⟩

end RatEval

/-- C6 amended: scalar coordinate input is not a supported shape — the call
always errors — and a single pair must instead be passed as a 1-element
batch, which succeeds (shown under the in-range side conditions). -/
theorem rinter_scalar_unsupported (p : List ℚ) (x y : ℚ) (deriv : Bool)
    (hp : p ≠ []) (hb : 0 ≤ baseOf ((intSqrt p.length : ℕ) : ℤ) (x, y)) :
    rinterScalar p x y deriv = none ∧
    (rinter1d p [x] [y] deriv false).isSome = true := by
  refine ⟨rfl, ?_⟩
  show (rinterFlat p ((intSqrt p.length : ℕ) : ℤ) [x] [y] deriv).isSome = true
  obtain ⟨r, hr⟩ := rinterFlat_isSome p _ [x] [y] deriv hp
    (Int.natCast_nonneg _) rfl (by simp) (by
      intro s hs
      have hs2 : s = (x, y) := by simpa using hs
      rw [hs2]
      exact hb)
  rw [hr]
  rfl

section RatEval

attribute [local semireducible] Rat.add Rat.sub Rat.mul Rat.inv Rat.ofScientific

/-- Witness for C6's amended statement at a concrete table and pair. -/
theorem rinter_scalar_unsupported_witness :
    rinterScalar ones49 3 3 true = none ∧
    (rinter1d ones49 [3] [3] true false).isSome = true :=
  rinter_scalar_unsupported ones49 3 3 true (by decide) (by decide)

end RatEval

section RatEval

attribute [local semireducible] Rat.add Rat.sub Rat.mul Rat.inv Rat.ofScientific

set_option maxRecDepth 8000 in
/-- Counterexample to C5 as stated: for a 2-D coordinate batch with
derivatives requested, the value is reshaped back to 2x2 but `dfdx` and
`dfdy` are returned as flat length-4 vectors (rinter.py line 232 reshapes
only `z`), so the derivative outputs do not have the batch's shape S. -/
theorem rinter_grid_deriv_shape_cex :
    rinterGrid ones49 [[3, 3], [3, 3]] [[3, 3], [3, 3]] true
      = some ([[1, 1], [1, 1]], some ([0, 0, 0, 0], [0, 0, 0, 0])) := by
  decide

end RatEval

/-- C5 amended: the value output preserves the batch shape for 1-D and 2-D
batches; the derivative outputs match the shape only for 1-D batches and
come back flattened (length `R*C`) for 2-D batches; scalar input errors
instead of returning anything. -/
theorem rinter_shape_preservation_amended :
    (∀ (p xs ys : List ℚ) (deriv init : Bool) (z : List ℚ)
        (d : Option (List ℚ × List ℚ)),
      rinter1d p xs ys deriv init = some (z, d) →
      z.length = xs.length ∧
        ∀ dx dy, d = some (dx, dy) →
          dx.length = xs.length ∧ dy.length = xs.length) ∧
    (∀ (p : List ℚ) (xs ys : List (List ℚ)) (deriv : Bool)
        (z : List (List ℚ)) (d : Option (List ℚ × List ℚ)),
      (∀ r ∈ xs, r.length = (xs.headD []).length) →
      rinterGrid p xs ys deriv = some (z, d) →
      z.length = xs.length ∧
        (∀ row ∈ z, row.length = (xs.headD []).length) ∧
        ∀ dx dy, d = some (dx, dy) →
          dx.length = xs.length * (xs.headD []).length ∧
          dy.length = xs.length * (xs.headD []).length) ∧
    (∀ (p : List ℚ) (x y : ℚ) (deriv : Bool), rinterScalar p x y deriv = none) := by
  refine ⟨?_, ?_, fun p x y deriv => rfl⟩
  · intro p xs ys deriv init z d h
    cases init with
    | true => exact absurd h (by simp [rinter1d])
    | false => exact rinterFlat_some_lengths p _ xs ys deriv z d h
  · intro p xs ys deriv z d hrect h
    unfold rinterGrid at h
    cases hf : rinterFlat p ((intSqrt p.length : ℕ) : ℤ) xs.flatten ys.flatten
        deriv with
    | none => rw [hf] at h; exact absurd h (by simp)
    | some zd =>
        obtain ⟨z1, d1⟩ := zd
        rw [hf] at h
        simp only [Option.some.injEq, Prod.mk.injEq] at h
        obtain ⟨hz, hd⟩ := h
        have hlens := rinterFlat_some_lengths _ _ _ _ _ _ _ hf
        have hflat : xs.flatten.length = xs.length * (xs.headD []).length :=
          length_join_rect xs _ hrect
        refine ⟨by rw [← hz, reshape2_length], ?_, ?_⟩
        · intro row hrow
          rw [← hz] at hrow
          exact reshape2_rows _ _ z1 (by rw [hlens.1, hflat]) row hrow
        · intro dx dy hdd
          rw [← hd] at hdd
          obtain ⟨h1, h2⟩ := hlens.2 dx dy hdd
          exact ⟨h1.trans hflat, h2.trans hflat⟩

section RatEval

attribute [local semireducible] Rat.add Rat.sub Rat.mul Rat.inv Rat.ofScientific

/-- Witness for C5's amended statement: concrete length facts obtained from
the theorem at a 2-sample 1-D batch. -/
theorem rinter_shape_preservation_amended_witness :
    ([1, 1] : List ℚ).length = ([(2:ℚ), 3] : List ℚ).length ∧
    ([0, 0] : List ℚ).length = ([(2:ℚ), 3] : List ℚ).length := by
  have h := rinter_shape_preservation_amended.1 ones25 [2, 3] [2, 2] true false
    [1, 1] (some ([0, 0], [0, 0])) (by decide)
  exact ⟨h.1, (h.2 [0, 0] [0, 0] rfl).1⟩

end RatEval

section RatEval

attribute [local semireducible] Rat.add Rat.sub Rat.mul Rat.inv Rat.ofScientific

/-- C8 (code defect): requesting `initialize=True` does not build a reusable
coefficient cache — the call raises inside the aliased in-place coefficient
assignment (rinter.py lines 104-107) and, with `init = 1`, the row
intermediates `y_1..y2` of line 213 would be unbound anyway — while the
plain call on the same inputs returns normally. -/
theorem rinter_init_mode_crash :
    rinter1d ones25 [3] [3] true true = none ∧
    rinter1d ones25 [3] [3] true false = some ([1], some ([0], [0])) :=
  ⟨rfl, by decide⟩

end RatEval

/-- C9: every call of `rinter` leaves the caller's lookup table unchanged —
the executed paths only read the table (all element writes in the source
target freshly allocated arrays, and the aliased writes of the `init` path
raise before storing anything), here expressed over the state-threaded
variants which return the caller's array alongside the result. -/
theorem rinter_table_unchanged :
    (∀ (p xs ys : List ℚ) (deriv init : Bool)
        (out : (List ℚ × Option (List ℚ × List ℚ)) × List ℚ),
      rinter1dStore p xs ys deriv init = some out → out.2 = p) ∧
    (∀ (p : List (List ℚ)) (xs ys : List ℚ) (deriv init : Bool)
        (out : (List ℚ × Option (List ℚ × List ℚ)) × List (List ℚ)),
      rinter2dStore p xs ys deriv init = some out → out.2 = p) := by
  constructor
  · intro p xs ys deriv init out h
    unfold rinter1dStore at h
    cases hr : rinter1d p xs ys deriv init with
    | none => rw [hr] at h; exact absurd h (by simp)
    | some r =>
        rw [hr] at h
        simp only [Option.map_some', Option.some.injEq] at h
        rw [← h]
  · intro p xs ys deriv init out h
    unfold rinter2dStore at h
    cases hr : rinter2d p xs ys deriv init with
    | none => rw [hr] at h; exact absurd h (by simp)
    | some r =>
        rw [hr] at h
        simp only [Option.map_some', Option.some.injEq] at h
        rw [← h]

section RatEval

attribute [local semireducible] Rat.add Rat.sub Rat.mul Rat.inv Rat.ofScientific

/-- Witness for C9 at a concrete call: the table comes back unchanged. -/
theorem rinter_table_unchanged_witness :
    ∃ out, rinter1dStore ones25 [2] [2] false false = some out ∧
      out.2 = ones25 :=
  ⟨(([1], none), ones25), by decide,
   rinter_table_unchanged.1 ones25 [2] [2] false false (([1], none), ones25)
     (by decide)⟩

end RatEval


/-- C1: if any rescaled coordinate `2*xx + (N-1)/2` or `2*yy + (N-1)/2` of
the batch falls outside `[1, N-2]`, `dao_value` does not raise: it returns
zero-filled arrays of the same shape as `xx` — the value, and when
derivatives are requested also `dvdx` and `dvdy` — and the check is
all-or-nothing for the whole batch (a single offending coordinate zeroes
every output element). -/
theorem dao_value_edge_guard_zeros
    (derf : List ℚ → List ℚ → List ℚ → List ℚ × List ℚ × List ℚ × List ℚ)
    (xx yy : NArr) (gauss : List ℚ) (psf : List (List ℚ)) (psf1d : List ℚ)
    (deriv ps1d : Bool)
    (hx : (xx.map (rescale psf)).toList ≠ [])
    (hy : (yy.map (rescale psf)).toList ≠ [])
    (hviol :
      (∃ q ∈ (xx.map (rescale psf)).toList, q < 1 ∨ ((npsfOf psf : ℚ) - 2) < q) ∨
      (∃ q ∈ (yy.map (rescale psf)).toList, q < 1 ∨ ((npsfOf psf : ℚ) - 2) < q)) :
    dao_value derf xx yy gauss psf psf1d deriv ps1d
      = some (xx.map (fun _ => 0),
          match deriv with
          | true => some (xx.map (fun _ => 0), xx.map (fun _ => 0))
          | false => none) ∧
    (NArr.map (fun _ => (0:ℚ)) xx).shape = xx.shape := by
  refine ⟨?_, NArr.shape_map _ xx⟩
  have hsplit : ∀ (l : List ℚ),
      (∃ q ∈ l, q < 1 ∨ ((npsfOf psf : ℚ) - 2) < q) →
      ((∃ q ∈ l, q < 1) ∨ (∃ q ∈ l, ((npsfOf psf : ℚ) - 2) < q)) := by
    rintro l ⟨q, hq, h1 | h2⟩
    · exact Or.inl ⟨q, hq, h1⟩
    · exact Or.inr ⟨q, hq, h2⟩
  unfold dao_value
  simp only []
  rw [if_neg hx]
  by_cases hxv : (∃ q ∈ (xx.map (rescale psf)).toList, q < 1) ∨
      (∃ q ∈ (xx.map (rescale psf)).toList, ((npsfOf psf : ℚ) - 2) < q)
  · rw [if_pos hxv]
  · rw [if_neg hxv, if_neg hy]
    have hyv := hsplit _ (hviol.resolve_left (fun h => hxv (hsplit _ h)))
    rw [if_pos hyv]

section RatEval

attribute [local semireducible] Rat.add Rat.sub Rat.mul Rat.inv Rat.ofScientific

/-- Witness for C1: an out-of-range x coordinate zeroes the whole output. -/
theorem dao_value_edge_guard_zeros_witness :
    dao_value derfC (NArr.one [10]) (NArr.one [0]) [] psfA [7] true true
      = some (NArr.one [0], some (NArr.one [0], NArr.one [0])) :=
  (dao_value_edge_guard_zeros derfC (NArr.one [10]) (NArr.one [0]) [] psfA [7]
    true true (by decide) (by decide) (by decide)).1

end RatEval

/-- C4: for every in-range evaluation with derivatives requested (default
`Radial1D` residual form), `dao_value` combines the interpolator's raw
derivatives with the Gaussian partials as `dvdx = 2*dfdx - pder[1]` and
`dvdy = 2*dfdy - pder[2]`, and `value = e + interp`; in particular, when
the interpolated residual and its derivatives are all zero, the value
equals the raw Gaussian value `e` and `dvdx`, `dvdy` equal `-pder[1]`,
`-pder[2]` exactly. -/
theorem dao_value_derivative_combination
    (derf : List ℚ → List ℚ → List ℚ → List ℚ × List ℚ × List ℚ × List ℚ)
    (xl yl gauss : List ℚ) (psf : List (List ℚ)) (psf1d : List ℚ)
    (e pd0 pd1 pd2 v dfdx dfdy : List ℚ)
    (hxne : xl ≠ []) (hyne : yl ≠ [])
    (hxin : ∀ q ∈ xl, 1 ≤ rescale psf q ∧ rescale psf q ≤ (npsfOf psf : ℚ) - 2)
    (hyin : ∀ q ∈ yl, 1 ≤ rescale psf q ∧ rescale psf q ≤ (npsfOf psf : ℚ) - 2)
    (hderf : derf xl yl gauss = (e, pd0, pd1, pd2))
    (hrint : rinter1d psf1d (xl.map (rescale psf)) (yl.map (rescale psf))
        true false = some (v, some (dfdx, dfdy)))
    (hev : e.length = v.length) (hdx : dfdx.length = pd1.length)
    (hdy : dfdy.length = pd2.length) :
    dao_value derf (NArr.one xl) (NArr.one yl) gauss psf psf1d true true
      = some (NArr.one (List.zipWith (fun a b => a + b) e v),
          some (NArr.one (List.zipWith (fun a b => 2*a - b) dfdx pd1),
                NArr.one (List.zipWith (fun a b => 2*a - b) dfdy pd2))) ∧
    (v = List.replicate e.length 0 → dfdx = List.replicate pd1.length 0 →
      dfdy = List.replicate pd2.length 0 →
      dao_value derf (NArr.one xl) (NArr.one yl) gauss psf psf1d true true
        = some (NArr.one e, some (NArr.one (pd1.map (fun b => -b)),
            NArr.one (pd2.map (fun b => -b))))) := by
  have hxg : ¬ ((NArr.one xl).map (rescale psf)).toList = [] := by
    simp [NArr.map, NArr.toList, hxne]
  have hyg : ¬ ((NArr.one yl).map (rescale psf)).toList = [] := by
    simp [NArr.map, NArr.toList, hyne]
  have hxval : ¬ ((∃ q ∈ ((NArr.one xl).map (rescale psf)).toList, q < 1) ∨
      (∃ q ∈ ((NArr.one xl).map (rescale psf)).toList, ((npsfOf psf : ℚ) - 2) < q)) := by
    rintro (⟨q, hq, hlt⟩ | ⟨q, hq, hgt⟩)
    · simp only [NArr.map, NArr.toList, List.mem_map] at hq
      obtain ⟨x0, hx0, rfl⟩ := hq
      exact absurd hlt (not_lt.mpr (hxin x0 hx0).1)
    · simp only [NArr.map, NArr.toList, List.mem_map] at hq
      obtain ⟨x0, hx0, rfl⟩ := hq
      exact absurd hgt (not_lt.mpr (hxin x0 hx0).2)
  have hyval : ¬ ((∃ q ∈ ((NArr.one yl).map (rescale psf)).toList, q < 1) ∨
      (∃ q ∈ ((NArr.one yl).map (rescale psf)).toList, ((npsfOf psf : ℚ) - 2) < q)) := by
    rintro (⟨q, hq, hlt⟩ | ⟨q, hq, hgt⟩)
    · simp only [NArr.map, NArr.toList, List.mem_map] at hq
      obtain ⟨y0, hy0, rfl⟩ := hq
      exact absurd hlt (not_lt.mpr (hyin y0 hy0).1)
    · simp only [NArr.map, NArr.toList, List.mem_map] at hq
      obtain ⟨y0, hy0, rfl⟩ := hq
      exact absurd hgt (not_lt.mpr (hyin y0 hy0).2)
  have hmain : dao_value derf (NArr.one xl) (NArr.one yl) gauss psf psf1d true true
      = some (NArr.one (List.zipWith (fun a b => a + b) e v),
          some (NArr.one (List.zipWith (fun a b => 2*a - b) dfdx pd1),
                NArr.one (List.zipWith (fun a b => 2*a - b) dfdy pd2))) := by
    unfold dao_value
    simp only []
    rw [if_neg hxg, if_neg hxval, if_neg hyg, if_neg hyval]
    show daoDerivCombine (derf xl yl gauss)
        (rinter1d psf1d (xl.map (rescale psf)) (yl.map (rescale psf)) true false)
      = _
    rw [hderf, hrint]
    simp only [daoDerivCombine, zipSameLen]
    rw [if_pos hev, if_pos hdx, if_pos hdy]
  refine ⟨hmain, ?_⟩
  intro hv0 hdx0 hdy0
  subst hv0
  subst hdx0
  subst hdy0
  rw [hmain, zipWith_add_replicate_zero e, zipWith_sub_replicate_zero pd1,
    zipWith_sub_replicate_zero pd2]

section RatEval

attribute [local semireducible] Rat.add Rat.sub Rat.mul Rat.inv Rat.ofScientific

/-- Witness for C4: on a squares residual table at a fractional point the
interpolator returns `v = 2809/16`, `dfdx = 53/2`, `dfdy = 265/2`, and
`dao_value` combines them with `e = 5`, `pder = ([9],[7],[11])` into
`(5 + 2809/16, 2*(53/2) - 7, 2*(265/2) - 11) = (2889/16, 46, 254)`. -/
theorem dao_value_derivative_combination_witness :
    dao_value derfW (NArr.one [-1/2]) (NArr.one [-3/8]) [] psf7 sq25 true true
      = some (NArr.one [2889/16], some (NArr.one [46], NArr.one [254])) := by
  have h := dao_value_derivative_combination derfW [-1/2] [-3/8] [] psf7 sq25
    [5] [9] [7] [11] [2809/16] [53/2] [265/2]
    (by decide) (by decide) (by decide) (by decide) rfl (by decide)
    rfl rfl rfl
  have h2 := h.1
  rw [h2]
  decide

end RatEval

section RatEval

attribute [local semireducible] Rat.add Rat.sub Rat.mul Rat.inv Rat.ofScientific

set_option maxRecDepth 8000 in
theorem dao_value_psf16_concrete :
    dao_value derfC (NArr.one [-13/4]) (NArr.one [-13/4]) [] psf16 [42]
        false true
      = some (NArr.two [List.replicate 16 105], none) := by
  decide

end RatEval

/-- C10: which lookup table `dao_value` actually consumes depends on the
`deriv` flag (with the default `ps1d=True` residual form): with derivatives
requested the residual is interpolated from the separate `psf1d` argument
and the 2-D `psf` values are never interpolated (only its column count
enters, through the rescaling), whereas without derivatives the 2-D `psf`
itself is handed to the interpolator — which then derives its grid stride
as `int(sqrt(len(psf)))` from the number of rows — and `psf1d` is ignored;
the concrete instance shows a 16-row table of constant rows `0..15` being
read with stride `int(sqrt(16)) = 4`, so the output reproduces row 5. -/
theorem dao_value_table_dispatch :
    (∀ (derf : List ℚ → List ℚ → List ℚ → List ℚ × List ℚ × List ℚ × List ℚ)
        (xx yy : NArr) (gauss : List ℚ) (psf psf2 : List (List ℚ))
        (psf1d : List ℚ),
      npsfOf psf = npsfOf psf2 →
      dao_value derf xx yy gauss psf psf1d true true
        = dao_value derf xx yy gauss psf2 psf1d true true) ∧
    (∀ (derf : List ℚ → List ℚ → List ℚ → List ℚ × List ℚ × List ℚ × List ℚ)
        (xx yy : NArr) (gauss : List ℚ) (psf : List (List ℚ))
        (psf1d psf1d2 : List ℚ),
      dao_value derf xx yy gauss psf psf1d false true
        = dao_value derf xx yy gauss psf psf1d2 false true) ∧
    (dao_value derfC (NArr.one [-13/4]) (NArr.one [-13/4]) [] psf16 [42]
        false true
      = some (NArr.two [List.replicate 16 105], none)) := by
  refine ⟨?_, ?_, dao_value_psf16_concrete⟩
  · intro derf xx yy gauss psf psf2 psf1d h
    have hres : rescale psf = rescale psf2 := by
      funext q
      simp [rescale, halfOf, h]
    cases xx <;> cases yy <;>
      (unfold dao_value; simp only [hres, h])
  · intro derf xx yy gauss psf psf1d psf1d2
    cases xx <;> cases yy <;>
      (unfold dao_value; simp only [])

section RatEval

attribute [local semireducible] Rat.add Rat.sub Rat.mul Rat.inv Rat.ofScientific

/-- Witness for C10: two same-shape tables with different values give the
same derivative-path result. -/
theorem dao_value_table_dispatch_witness :
    dao_value derfC (NArr.one [0]) (NArr.one [0]) [] psfA [7] true true
      = dao_value derfC (NArr.one [0]) (NArr.one [0]) [] psfB [7] true true :=
  dao_value_table_dispatch.1 derfC (NArr.one [0]) (NArr.one [0]) [] psfA psfB
    [7] (by decide)

end RatEval

